import Mathlib

/-!
Shallow embedding of the persistence/domain layer of the `cli-project-jira`
repository (`src/models.rs`, `src/db.rs`).

Rust `HashMap<u32, V>` values are modelled as association lists
`List (Nat × V)`; lookup, insertion, removal and in-place update are the
functions `mapFind`, `mapInsert`, `mapErase`, `mapModify` below, which agree
with `HashMap` extensionally (lookup-wise).  Rust `u32` identifiers are
modelled as `Nat`; the counter only ever increases by one per operation, so
overflow is unreachable in any realizable execution.  `anyhow::Result` is
modelled as `Except String`, carrying the exact error message strings from
`db.rs`.  Each domain-store operation is the pure state transformer of the
corresponding `ProjectsDatabase` method: the backend read supplies the input
state, and the backend write makes the returned state the persisted one; an
error return means the write never happened, so the persisted state is the
input state (captured by `applyOp`).
-/

namespace Jira

/-- `Status` from `models.rs`. -/
inductive Status where
  | Open
  | InProgress
  | Resolved
  | Closed
deriving DecidableEq, Repr

/-- `Story` from `models.rs`. -/
structure Story where
  name : String
  description : String
  status : Status
deriving DecidableEq, Repr

/-- `Epic` from `models.rs`: `stories` is the ordered sequence of story ids. -/
structure Epic where
  name : String
  description : String
  status : Status
  stories : List Nat
deriving DecidableEq, Repr

/-- `Epic::new`: empty `stories`, status `Open`. -/
def Epic.new (name description : String) : Epic :=
  { name := name, description := description, status := Status.Open, stories := [] }

/-- `Story::new`. -/
def Story.new (name description : String) : Story :=
  { name := name, description := description, status := Status.Open }

/-- `DBState` from `models.rs`: the root aggregate. -/
structure DBState where
  last_item_id : Nat
  epics : List (Nat × Epic)
  stories : List (Nat × Story)
deriving DecidableEq, Repr

/-- `HashMap::get`: first association-list entry with the given key. -/
def mapFind {α : Type} (k : Nat) (l : List (Nat × α)) : Option α :=
  (l.find? (fun p => p.1 == k)).map (fun p => p.2)

/-- `HashMap::remove`: drop the entry with the given key. -/
def mapErase {α : Type} (k : Nat) (l : List (Nat × α)) : List (Nat × α) :=
  l.filter (fun p => p.1 != k)

/-- `HashMap::insert`: bind the key to the value, replacing any previous binding. -/
def mapInsert {α : Type} (k : Nat) (v : α) (l : List (Nat × α)) : List (Nat × α) :=
  (k, v) :: mapErase k l

/-- `HashMap::get_mut` followed by mutation: rewrite the value bound to the key in place. -/
def mapModify {α : Type} (k : Nat) (f : α → α) (l : List (Nat × α)) : List (Nat × α) :=
  l.map (fun p => if p.1 == k then (p.1, f p.2) else p)

/-- The keys of an association-list map. -/
def keys {α : Type} (l : List (Nat × α)) : List Nat :=
  l.map (fun p => p.1)

/-- The empty state: `last_item_id = 0`, both maps empty (`MockDb::new`, and the
spec's initial state). -/
def emptyState : DBState :=
  { last_item_id := 0, epics := [], stories := [] }

/-- `ProjectsDatabase::create_epic` (db.rs:26-34): allocates `last_item_id + 1`,
inserts the caller's epic under it unchanged, returns the new id.  Never fails. -/
def create_epic (s : DBState) (epic : Epic) : DBState × Nat :=
  let current_id := s.last_item_id + 1
  ({ s with last_item_id := current_id, epics := mapInsert current_id epic s.epics },
   current_id)

/-- `ProjectsDatabase::create_story` (db.rs:36-49): allocates `last_item_id + 1`,
inserts the story and appends the id to the owning epic's `stories`; if the epic
lookup fails the in-memory mutation is discarded and the error is returned
before any write. -/
def create_story (s : DBState) (story : Story) (epic_id : Nat) :
    Except String (DBState × Nat) :=
  let current_id := s.last_item_id + 1
  let s1 := { s with last_item_id := current_id,
                     stories := mapInsert current_id story s.stories }
  match mapFind epic_id s1.epics with
  | none => Except.error "Epic not found!"
  | some _ =>
    let push := fun (e : Epic) => { e with stories := e.stories ++ [current_id] }
    Except.ok ({ s1 with epics := mapModify epic_id push s1.epics }, current_id)

/-- `ProjectsDatabase::delete_epic` (db.rs:51-62): removes every story id listed
by the epic from the global story map, then removes the epic. -/
def delete_epic (s : DBState) (epic_id : Nat) : Except String DBState :=
  match mapFind epic_id s.epics with
  | none => Except.error "Epic with such id not found!"
  | some epic =>
    Except.ok
      { s with stories := epic.stories.foldl (fun m id => mapErase id m) s.stories,
               epics := mapErase epic_id s.epics }

/-- `Iterator::position`: index of the first element satisfying the predicate. -/
def position {α : Type} (p : α → Bool) : List α → Option Nat
  | [] => none
  | x :: xs => if p x then some 0 else (position p xs).map (fun i => i + 1)

/-- `ProjectsDatabase::delete_story` (db.rs:64-82): finds the position of
`story_id` in the epic's `stories`, removes that entry and the global story. -/
def delete_story (s : DBState) (epic_id story_id : Nat) : Except String DBState :=
  match mapFind epic_id s.epics with
  | none => Except.error "Epic with such id not found!"
  | some epic =>
    match position (fun id => id == story_id) epic.stories with
    | none => Except.error "Story not found"
    | some story_idx =>
      let rm := fun (e : Epic) => { e with stories := e.stories.eraseIdx story_idx }
      Except.ok
        { s with epics := mapModify epic_id rm s.epics,
                 stories := mapErase story_id s.stories }

/-- `ProjectsDatabase::update_epic_status` (db.rs:84-94). -/
def update_epic_status (s : DBState) (epic_id : Nat) (status : Status) :
    Except String DBState :=
  match mapFind epic_id s.epics with
  | none => Except.error "Epic with such id not found!"
  | some _ =>
    Except.ok { s with epics := mapModify epic_id (fun e => { e with status := status }) s.epics }

/-- `ProjectsDatabase::update_story_status` (db.rs:96-106). -/
def update_story_status (s : DBState) (story_id : Nat) (status : Status) :
    Except String DBState :=
  match mapFind story_id s.stories with
  | none => Except.error "Story with such id not found!"
  | some _ =>
    Except.ok { s with stories := mapModify story_id (fun st => { st with status := status }) s.stories }

/-- A domain-store mutating operation together with its arguments. -/
inductive Op where
  | createEpic (epic : Epic)
  | createStory (story : Story) (epic_id : Nat)
  | deleteEpic (epic_id : Nat)
  | deleteStory (epic_id story_id : Nat)
  | updateEpicStatus (epic_id : Nat) (status : Status)
  | updateStoryStatus (story_id : Nat) (status : Status)
deriving DecidableEq, Repr

/-- Persisted state after running one operation against the backend, together
with the returned id when the operation is a successful create.  A failed
operation returns before `write_db`, so the persisted state is unchanged. -/
def applyOp (s : DBState) : Op → DBState × Option Nat
  | Op.createEpic e =>
    let (s', id) := create_epic s e
    (s', some id)
  | Op.createStory st eid =>
    match create_story s st eid with
    | Except.ok (s', id) => (s', some id)
    | Except.error _ => (s, none)
  | Op.deleteEpic eid =>
    match delete_epic s eid with
    | Except.ok s' => (s', none)
    | Except.error _ => (s, none)
  | Op.deleteStory eid sid =>
    match delete_story s eid sid with
    | Except.ok s' => (s', none)
    | Except.error _ => (s, none)
  | Op.updateEpicStatus eid st =>
    match update_epic_status s eid st with
    | Except.ok s' => (s', none)
    | Except.error _ => (s, none)
  | Op.updateStoryStatus sid st =>
    match update_story_status s sid st with
    | Except.ok s' => (s', none)
    | Except.error _ => (s, none)

/-- Run a sequence of operations from a state, collecting the ids returned by
the successful create operations, in order. -/
def runOps (s : DBState) : List Op → DBState × List Nat
  | [] => (s, [])
  | op :: ops =>
    let (s1, r) := applyOp s op
    let (s2, ids) := runOps s1 ops
    match r with
    | some id => (s2, id :: ids)
    | none => (s2, ids)

/-- All story ids listed across the epics of an epic map, in order. -/
def epicsListed (l : List (Nat × Epic)) : List Nat :=
  l.flatMap (fun p => p.2.stories)

/-- All story ids listed across all epics' `stories` sequences. -/
def allListed (s : DBState) : List Nat :=
  epicsListed s.epics

/-- An operation sequence whose `createEpic` arguments all carry an empty
`stories` list, as every epic built through `Epic::new` (the only constructor
used by the UI layer) does. -/
def goodCreate : Op → Bool
  | Op.createEpic e => e.stories.isEmpty
  | _ => true

/-- Identifier-bound invariant: every key of either map is at most
`last_item_id`.  This holds for arbitrary operation arguments. -/
structure KeyInv (s : DBState) : Prop where
  epicKeysLe : ∀ k ∈ keys s.epics, k ≤ s.last_item_id
  storyKeysLe : ∀ k ∈ keys s.stories, k ≤ s.last_item_id

/-- Full referential-integrity invariant of a state. -/
structure Inv (s : DBState) : Prop where
  epicKeysNodup : (keys s.epics).Nodup
  storyKeysNodup : (keys s.stories).Nodup
  epicKeysLe : ∀ k ∈ keys s.epics, k ≤ s.last_item_id
  storyKeysLe : ∀ k ∈ keys s.stories, k ≤ s.last_item_id
  listedLe : ∀ id ∈ allListed s, id ≤ s.last_item_id
  listedNodup : (allListed s).Nodup
  listedInStories : ∀ id ∈ allListed s, id ∈ keys s.stories

/-- Outcome of a call to the file backend's write: a returned `Result`
(`ok`/`err`), or a panic that aborts instead of returning. -/
inductive WriteOutcome where
  | ok
  | err (msg : String)
  | panicked (msg : String)
deriving DecidableEq, Repr

/-- `JSONFileDatabase::write_db` (db.rs:128-133), with the two effectful
sub-results as inputs: `ser` is the result of `serde_json::to_string` and
`fsWriteOk` tells whether the underlying `fs::write` succeeds.  A
serialization error propagates via `?` as an error return; a failed
`fs::write` hits `.expect("Can't write to file")`, which panics. -/
def write_db (ser : Except String String) (fsWriteOk : Bool) : WriteOutcome :=
  match ser with
  | Except.error e => WriteOutcome.err e
  | Except.ok _ =>
    if fsWriteOk then WriteOutcome.ok
    else WriteOutcome.panicked "Can't write to file"

/-- JSON document tree, the shape of the persisted file format. -/
inductive Json where
  | num (n : Nat)
  | str (s : String)
  | arr (items : List Json)
  | obj (fields : List (String × Json))

/-- Decimal digit to its character. -/
def digitChar (d : Nat) : Char :=
  match d with
  | 0 => '0' | 1 => '1' | 2 => '2' | 3 => '3' | 4 => '4'
  | 5 => '5' | 6 => '6' | 7 => '7' | 8 => '8' | _ => '9'

/-- Character to its decimal digit value. -/
def charDigit (c : Char) : Nat :=
  c.toNat - 48

/-- Is the character a decimal digit? -/
def isDigitChar (c : Char) : Bool :=
  48 ≤ c.toNat && c.toNat ≤ 57

/-- Little-endian base-10 digits, by structural recursion on a fuel bound. -/
def natDigitsAux : Nat → Nat → List Nat
  | 0, _ => []
  | fuel + 1, n => if n = 0 then [] else (n % 10) :: natDigitsAux fuel (n / 10)

/-- Little-endian base-10 digits of `n` (`[]` for `0`). -/
def natDigits (n : Nat) : List Nat :=
  natDigitsAux n n

/-- Modelled from the spec: map keys are string-encoded integers (§6); the
decimal rendering of an identifier, as `serde_json` produces for `u32` keys. -/
def natKey (n : Nat) : String :=
  if n = 0 then "0" else String.mk ((natDigits n).reverse.map digitChar)

/-- Modelled from the spec: parse a string-encoded integer map key back. -/
def natUnkey (s : String) : Option Nat :=
  if s.data.isEmpty || !(s.data.all isDigitChar) then none
  else some (Nat.ofDigits 10 ((s.data.map charDigit).reverse))

/-- Modelled from the spec: a `Status` serializes as its bare tag (§6). -/
def encodeStatus : Status → Json
  | Status.Open => Json.str "Open"
  | Status.InProgress => Json.str "InProgress"
  | Status.Resolved => Json.str "Resolved"
  | Status.Closed => Json.str "Closed"

/-- Modelled from the spec: decode a bare status tag. -/
def decodeStatus : Json → Option Status
  | Json.str "Open" => some Status.Open
  | Json.str "InProgress" => some Status.InProgress
  | Json.str "Resolved" => some Status.Resolved
  | Json.str "Closed" => some Status.Closed
  | _ => none

/-- Modelled from the spec: a `Story` serializes as an object with its three
fields in declaration order (§6). -/
def encodeStory (st : Story) : Json :=
  Json.obj [("name", Json.str st.name), ("description", Json.str st.description),
            ("status", encodeStatus st.status)]

/-- Modelled from the spec: decode a serialized `Story`. -/
def decodeStory : Json → Option Story
  | Json.obj [("name", Json.str n), ("description", Json.str d), ("status", j)] =>
    (decodeStatus j).map (fun st => { name := n, description := d, status := st })
  | _ => none

/-- Modelled from the spec: decode a JSON array of identifiers. -/
def decodeNums : List Json → Option (List Nat)
  | [] => some []
  | Json.num n :: rest => (decodeNums rest).map (fun t => n :: t)
  | _ => none

/-- Modelled from the spec: an `Epic` serializes as an object with its four
fields in declaration order, `stories` as an array of identifiers (§6). -/
def encodeEpic (e : Epic) : Json :=
  Json.obj [("name", Json.str e.name), ("description", Json.str e.description),
            ("status", encodeStatus e.status),
            ("stories", Json.arr (e.stories.map Json.num))]

/-- Modelled from the spec: decode a serialized `Epic`. -/
def decodeEpic : Json → Option Epic
  | Json.obj [("name", Json.str n), ("description", Json.str d), ("status", j),
              ("stories", Json.arr items)] =>
    match decodeStatus j, decodeNums items with
    | some st, some ids =>
      some { name := n, description := d, status := st, stories := ids }
    | _, _ => none
  | _ => none

/-- Modelled from the spec: decode the entries of the serialized epic map. -/
def decodeEpicEntries : List (String × Json) → Option (List (Nat × Epic))
  | [] => some []
  | (ks, j) :: rest =>
    match natUnkey ks, decodeEpic j, decodeEpicEntries rest with
    | some k, some e, some t => some ((k, e) :: t)
    | _, _, _ => none

/-- Modelled from the spec: decode the entries of the serialized story map. -/
def decodeStoryEntries : List (String × Json) → Option (List (Nat × Story))
  | [] => some []
  | (ks, j) :: rest =>
    match natUnkey ks, decodeStory j, decodeStoryEntries rest with
    | some k, some st, some t => some ((k, st) :: t)
    | _, _, _ => none

/-- Modelled from the spec: the persisted file format (§6) — a single object
`{"last_item_id": ..., "epics": {...}, "stories": {...}}` with string-encoded
integer keys, as the `serde` derives on `DBState` produce. -/
def encodeDBState (s : DBState) : Json :=
  Json.obj [("last_item_id", Json.num s.last_item_id),
            ("epics", Json.obj (s.epics.map (fun p => (natKey p.1, encodeEpic p.2)))),
            ("stories", Json.obj (s.stories.map (fun p => (natKey p.1, encodeStory p.2))))]

/-- A sample persisted state: epic 1 owns story 2, counter at 2. -/
def sampleState : DBState :=
  { last_item_id := 2,
    epics := [(1, { name := "e", description := "", status := Status.Open,
                    stories := [2] })],
    stories := [(2, { name := "s", description := "", status := Status.Open })] }

/-- The epic stored under id 1 in `sampleState`. -/
def sampleEpic : Epic :=
  { name := "e", description := "", status := Status.Open, stories := [2] }

/-- A state whose epic 1 lists story id 2 twice, as only a hand-edited
persisted file could (the create path never produces it). -/
def dupState : DBState :=
  { last_item_id := 2,
    epics := [(1, { name := "e", description := "", status := Status.Open,
                    stories := [2, 2] })],
    stories := [(2, { name := "s", description := "", status := Status.Open })] }

/-- The epic stored under id 1 in `dupState`. -/
def dupEpic : Epic :=
  { name := "e", description := "", status := Status.Open, stories := [2, 2] }

/-- Modelled from the spec: decode a persisted file back into a `DBState`. -/
def decodeDBState : Json → Option DBState
  | Json.obj [("last_item_id", Json.num n), ("epics", Json.obj eps),
              ("stories", Json.obj sts)] =>
    match decodeEpicEntries eps, decodeStoryEntries sts with
    | some el, some sl => some { last_item_id := n, epics := el, stories := sl }
    | _, _ => none
  | _ => none

end Jira

namespace Jira

theorem keys_cons {α : Type} (p : Nat × α) (l : List (Nat × α)) :
    keys (p :: l) = p.1 :: keys l := rfl

theorem mapFind_cons {α : Type} {k : Nat} {p : Nat × α} {l : List (Nat × α)} :
    mapFind k (p :: l) = if p.1 = k then some p.2 else mapFind k l := by
  by_cases h : p.1 = k <;> simp [mapFind, List.find?_cons, h]

theorem mapErase_cons {α : Type} {k : Nat} {p : Nat × α} {l : List (Nat × α)} :
    mapErase k (p :: l) = if p.1 = k then mapErase k l else p :: mapErase k l := by
  by_cases h : p.1 = k <;> simp [mapErase, List.filter_cons, h]

theorem mapModify_cons {α : Type} {k : Nat} {f : α → α} {p : Nat × α} {l : List (Nat × α)} :
    mapModify k f (p :: l) = (if p.1 = k then (p.1, f p.2) else p) :: mapModify k f l := by
  by_cases h : p.1 = k <;> simp [mapModify, h]

theorem mapFind_isSome_iff {α : Type} {k : Nat} {l : List (Nat × α)} :
    (mapFind k l).isSome ↔ k ∈ keys l := by
  induction l with
  | nil => simp [mapFind, keys]
  | cons p t ih =>
    by_cases h : p.1 = k <;> simp [mapFind_cons, keys_cons, h, ih]
    exact fun hk => (h hk.symm).elim

theorem mapFind_eq_none_iff {α : Type} {k : Nat} {l : List (Nat × α)} :
    mapFind k l = none ↔ k ∉ keys l := by
  rw [← mapFind_isSome_iff, Option.isSome_iff_exists]
  cases mapFind k l <;> simp

theorem mapFind_mapErase_self {α : Type} {k : Nat} {l : List (Nat × α)} :
    mapFind k (mapErase k l) = none := by
  induction l with
  | nil => rfl
  | cons p t ih =>
    by_cases h : p.1 = k <;> simp [mapErase_cons, mapFind_cons, h, ih]

theorem mapFind_mapErase_ne {α : Type} {k k' : Nat} {l : List (Nat × α)} (h : k' ≠ k) :
    mapFind k' (mapErase k l) = mapFind k' l := by
  have h' : ¬(k = k') := fun hc => h hc.symm
  induction l with
  | nil => rfl
  | cons p t ih =>
    by_cases hp : p.1 = k
    · simp [mapErase_cons, mapFind_cons, hp, h', ih]
    · by_cases hp' : p.1 = k' <;> simp [mapErase_cons, mapFind_cons, hp, hp', h, ih]

theorem mapFind_mapInsert_self {α : Type} {k : Nat} {v : α} {l : List (Nat × α)} :
    mapFind k (mapInsert k v l) = some v := by
  simp [mapInsert, mapFind_cons]

theorem mapFind_mapInsert_ne {α : Type} {k k' : Nat} {v : α} {l : List (Nat × α)}
    (h : k' ≠ k) : mapFind k' (mapInsert k v l) = mapFind k' l := by
  have : k ≠ k' := fun hc => h hc.symm
  simp [mapInsert, mapFind_cons, this, mapFind_mapErase_ne h]

theorem mapFind_mapModify_self {α : Type} {k : Nat} {f : α → α} {l : List (Nat × α)} :
    mapFind k (mapModify k f l) = (mapFind k l).map f := by
  induction l with
  | nil => rfl
  | cons p t ih =>
    by_cases h : p.1 = k <;> simp [mapModify_cons, mapFind_cons, h, ih]

theorem mapFind_mapModify_ne {α : Type} {k k' : Nat} {f : α → α} {l : List (Nat × α)}
    (h : k' ≠ k) : mapFind k' (mapModify k f l) = mapFind k' l := by
  have h' : ¬(k = k') := fun hc => h hc.symm
  induction l with
  | nil => rfl
  | cons p t ih =>
    by_cases hp : p.1 = k
    · simp [mapModify_cons, mapFind_cons, hp, h', ih]
    · by_cases hp' : p.1 = k' <;> simp [mapModify_cons, mapFind_cons, hp, hp', h, h', ih]

theorem keys_mapModify {α : Type} {k : Nat} {f : α → α} {l : List (Nat × α)} :
    keys (mapModify k f l) = keys l := by
  induction l with
  | nil => rfl
  | cons p t ih =>
    by_cases h : p.1 = k <;> simp [mapModify_cons, keys_cons, h, ih]

theorem mapErase_sublist {α : Type} {k : Nat} {l : List (Nat × α)} :
    (mapErase k l).Sublist l :=
  List.filter_sublist l

theorem keys_mapErase_sublist {α : Type} {k : Nat} {l : List (Nat × α)} :
    (keys (mapErase k l)).Sublist (keys l) := by
  simpa [keys] using
    List.Sublist.map (fun p : Nat × α => p.1) (mapErase_sublist (k := k) (l := l))

theorem not_mem_keys_mapErase_self {α : Type} {k : Nat} {l : List (Nat × α)} :
    k ∉ keys (mapErase k l) := by
  rw [← mapFind_eq_none_iff]
  exact mapFind_mapErase_self

theorem mapErase_of_not_mem {α : Type} {k : Nat} {l : List (Nat × α)}
    (h : k ∉ keys l) : mapErase k l = l := by
  induction l with
  | nil => rfl
  | cons p t ih =>
    rw [keys_cons, List.mem_cons] at h
    push_neg at h
    have hp : p.1 ≠ k := fun hc => h.1 hc.symm
    simp [mapErase_cons, hp, ih h.2]

theorem mapModify_of_not_mem {α : Type} {k : Nat} {f : α → α} {l : List (Nat × α)}
    (h : k ∉ keys l) : mapModify k f l = l := by
  induction l with
  | nil => rfl
  | cons p t ih =>
    rw [keys_cons, List.mem_cons] at h
    push_neg at h
    have hp : p.1 ≠ k := fun hc => h.1 hc.symm
    simp [mapModify_cons, hp, ih h.2]

theorem mapErase_mapModify {α : Type} {k : Nat} {f : α → α} {l : List (Nat × α)} :
    mapErase k (mapModify k f l) = mapErase k l := by
  induction l with
  | nil => rfl
  | cons p t ih =>
    by_cases h : p.1 = k <;> simp [mapModify_cons, mapErase_cons, h, ih]

theorem keys_mapInsert_nodup {α : Type} {k : Nat} {v : α} {l : List (Nat × α)}
    (h : (keys l).Nodup) : (keys (mapInsert k v l)).Nodup := by
  have : keys (mapInsert k v l) = k :: keys (mapErase k l) := rfl
  rw [this, List.nodup_cons]
  exact ⟨not_mem_keys_mapErase_self, keys_mapErase_sublist.nodup h⟩

theorem flatMap_sublist {α β : Type} (f : α → List β) {l₁ l₂ : List α}
    (h : l₁.Sublist l₂) : (l₁.flatMap f).Sublist (l₂.flatMap f) := by
  induction h with
  | slnil => simp
  | cons a h ih =>
    rw [List.flatMap_cons]
    exact ih.trans (List.sublist_append_right _ _)
  | cons₂ a h ih =>
    rw [List.flatMap_cons, List.flatMap_cons]
    exact ih.append_left _

theorem epicsListed_cons {p : Nat × Epic} {l : List (Nat × Epic)} :
    epicsListed (p :: l) = p.2.stories ++ epicsListed l := by
  simp [epicsListed]

theorem epicsListed_sublist {l₁ l₂ : List (Nat × Epic)} (h : l₁.Sublist l₂) :
    (epicsListed l₁).Sublist (epicsListed l₂) :=
  flatMap_sublist _ h

end Jira

namespace Jira

theorem epicsListed_perm_of_find {l : List (Nat × Epic)} {k : Nat} {e : Epic}
    (hfind : mapFind k l = some e) (hnd : (keys l).Nodup) :
    (epicsListed l).Perm (e.stories ++ epicsListed (mapErase k l)) := by
  induction l with
  | nil => simp [mapFind] at hfind
  | cons p t ih =>
    rw [keys_cons, List.nodup_cons] at hnd
    by_cases hp : p.1 = k
    · rw [mapFind_cons, if_pos hp] at hfind
      obtain rfl : p.2 = e := by injection hfind
      rw [mapErase_cons, if_pos hp, mapErase_of_not_mem (hp ▸ hnd.1), epicsListed_cons]
    · rw [mapFind_cons, if_neg hp] at hfind
      have hperm := ih hfind hnd.2
      rw [mapErase_cons, if_neg hp, epicsListed_cons, epicsListed_cons]
      have h2 : ((p.2.stories ++ e.stories) ++ epicsListed (mapErase k t)).Perm
          ((e.stories ++ p.2.stories) ++ epicsListed (mapErase k t)) :=
        List.Perm.append_right _ List.perm_append_comm
      rw [List.append_assoc, List.append_assoc] at h2
      exact (List.Perm.append_left _ hperm).trans h2

theorem epicsListed_mapModify_perm {l : List (Nat × Epic)} {k : Nat} {e : Epic}
    {f : Epic → Epic} (hfind : mapFind k l = some e) (hnd : (keys l).Nodup) :
    (epicsListed (mapModify k f l)).Perm ((f e).stories ++ epicsListed (mapErase k l)) := by
  have h1 : mapFind k (mapModify k f l) = some (f e) := by
    rw [mapFind_mapModify_self, hfind, Option.map_some']
  have h2 : (keys (mapModify k f l)).Nodup := by
    rw [keys_mapModify]; exact hnd
  have h3 := epicsListed_perm_of_find h1 h2
  rwa [mapErase_mapModify] at h3

theorem epicsListed_mapModify_stories_eq {l : List (Nat × Epic)} {k : Nat}
    {f : Epic → Epic} (h : ∀ e, (f e).stories = e.stories) :
    epicsListed (mapModify k f l) = epicsListed l := by
  induction l with
  | nil => rfl
  | cons p t ih =>
    by_cases hp : p.1 = k <;>
      simp [mapModify_cons, epicsListed_cons, hp, ih, h]

theorem mapFind_foldl_mapErase_of_not_mem {α : Type} {ids : List Nat} {id : Nat}
    (h : id ∉ ids) (m : List (Nat × α)) :
    mapFind id (ids.foldl (fun acc i => mapErase i acc) m) = mapFind id m := by
  induction ids generalizing m with
  | nil => rfl
  | cons x rest ih =>
    rw [List.mem_cons] at h
    push_neg at h
    rw [List.foldl_cons, ih h.2, mapFind_mapErase_ne h.1]

theorem mapFind_foldl_mapErase_of_mem {α : Type} {ids : List Nat} {id : Nat}
    (h : id ∈ ids) (m : List (Nat × α)) :
    mapFind id (ids.foldl (fun acc i => mapErase i acc) m) = none := by
  induction ids generalizing m with
  | nil => cases h
  | cons x rest ih =>
    rw [List.foldl_cons]
    by_cases hr : id ∈ rest
    · exact ih hr _
    · have hx : id = x := by
        rcases List.mem_cons.mp h with h1 | h1
        · exact h1
        · exact (hr h1).elim
      rw [mapFind_foldl_mapErase_of_not_mem hr, hx, mapFind_mapErase_self]

theorem keys_foldl_mapErase_sublist {α : Type} {ids : List Nat} (m : List (Nat × α)) :
    (keys (ids.foldl (fun acc i => mapErase i acc) m)).Sublist (keys m) := by
  induction ids generalizing m with
  | nil => exact List.Sublist.refl _
  | cons x rest ih =>
    rw [List.foldl_cons]
    exact (ih _).trans keys_mapErase_sublist

theorem position_eq_none_of_not_mem {l : List Nat} {sid : Nat} (h : sid ∉ l) :
    position (fun id => id == sid) l = none := by
  induction l with
  | nil => rfl
  | cons x xs ih =>
    rw [List.mem_cons] at h
    push_neg at h
    have hx : ¬(x = sid) := fun hc => h.1 hc.symm
    simp [position, hx, ih h.2]

theorem position_mem {l : List Nat} {sid i : Nat}
    (h : position (fun id => id == sid) l = some i) : sid ∈ l := by
  induction l generalizing i with
  | nil => cases h
  | cons x xs ih =>
    by_cases hx : x = sid
    · rw [hx]; exact List.mem_cons_self _ _
    · rw [position, if_neg (by simpa using hx)] at h
      rcases Option.map_eq_some'.mp h with ⟨j, hj, _⟩
      exact List.mem_cons_of_mem _ (ih hj)

theorem not_mem_eraseIdx_of_position {l : List Nat} {sid i : Nat} (hnd : l.Nodup)
    (h : position (fun id => id == sid) l = some i) : sid ∉ l.eraseIdx i := by
  induction l generalizing i with
  | nil => cases h
  | cons x xs ih =>
    rw [List.nodup_cons] at hnd
    by_cases hx : x = sid
    · rw [position, if_pos (by simpa using hx)] at h
      obtain rfl : (0 : Nat) = i := by injection h
      rw [List.eraseIdx_cons_zero, ← hx]
      exact hnd.1
    · rw [position, if_neg (by simpa using hx)] at h
      rcases Option.map_eq_some'.mp h with ⟨j, hj, hji⟩
      subst hji
      rw [List.eraseIdx_cons_succ, List.mem_cons]
      push_neg
      exact ⟨fun hc => hx hc.symm, ih hnd.2 hj⟩

end Jira

namespace Jira

theorem create_epic_eq (s : DBState) (e : Epic) :
    create_epic s e =
      ({ last_item_id := s.last_item_id + 1,
         epics := mapInsert (s.last_item_id + 1) e s.epics,
         stories := s.stories }, s.last_item_id + 1) := rfl

theorem create_story_eq_none {s : DBState} {story : Story} {eid : Nat}
    (h : mapFind eid s.epics = none) :
    create_story s story eid = Except.error "Epic not found!" := by
  simp only [create_story, h]

theorem create_story_eq_some {s : DBState} {story : Story} {eid : Nat} {e : Epic}
    (h : mapFind eid s.epics = some e) :
    create_story s story eid =
      Except.ok
        ({ last_item_id := s.last_item_id + 1,
           epics := mapModify eid
             (fun ep => { ep with stories := ep.stories ++ [s.last_item_id + 1] }) s.epics,
           stories := mapInsert (s.last_item_id + 1) story s.stories },
         s.last_item_id + 1) := by
  simp only [create_story, h]

theorem delete_epic_eq_none {s : DBState} {eid : Nat}
    (h : mapFind eid s.epics = none) :
    delete_epic s eid = Except.error "Epic with such id not found!" := by
  simp only [delete_epic, h]

theorem delete_epic_eq_some {s : DBState} {eid : Nat} {e : Epic}
    (h : mapFind eid s.epics = some e) :
    delete_epic s eid =
      Except.ok
        { last_item_id := s.last_item_id,
          epics := mapErase eid s.epics,
          stories := e.stories.foldl (fun m id => mapErase id m) s.stories } := by
  simp only [delete_epic, h]

theorem delete_story_eq_no_epic {s : DBState} {eid sid : Nat}
    (h : mapFind eid s.epics = none) :
    delete_story s eid sid = Except.error "Epic with such id not found!" := by
  simp only [delete_story, h]

theorem delete_story_eq_no_story {s : DBState} {eid sid : Nat} {e : Epic}
    (h : mapFind eid s.epics = some e)
    (hp : position (fun id => id == sid) e.stories = none) :
    delete_story s eid sid = Except.error "Story not found" := by
  simp only [delete_story, h, hp]

theorem delete_story_eq_some {s : DBState} {eid sid : Nat} {e : Epic} {idx : Nat}
    (h : mapFind eid s.epics = some e)
    (hp : position (fun id => id == sid) e.stories = some idx) :
    delete_story s eid sid =
      Except.ok
        { last_item_id := s.last_item_id,
          epics := mapModify eid (fun ep => { ep with stories := ep.stories.eraseIdx idx }) s.epics,
          stories := mapErase sid s.stories } := by
  simp only [delete_story, h, hp]

theorem update_epic_status_eq_none {s : DBState} {eid : Nat} {st : Status}
    (h : mapFind eid s.epics = none) :
    update_epic_status s eid st = Except.error "Epic with such id not found!" := by
  simp only [update_epic_status, h]

theorem update_epic_status_eq_some {s : DBState} {eid : Nat} {st : Status} {e : Epic}
    (h : mapFind eid s.epics = some e) :
    update_epic_status s eid st =
      Except.ok
        { last_item_id := s.last_item_id,
          epics := mapModify eid (fun ep => { ep with status := st }) s.epics,
          stories := s.stories } := by
  simp only [update_epic_status, h]

theorem update_story_status_eq_none {s : DBState} {sid : Nat} {st : Status}
    (h : mapFind sid s.stories = none) :
    update_story_status s sid st = Except.error "Story with such id not found!" := by
  simp only [update_story_status, h]

theorem update_story_status_eq_some {s : DBState} {sid : Nat} {st : Status} {sto : Story}
    (h : mapFind sid s.stories = some sto) :
    update_story_status s sid st =
      Except.ok
        { last_item_id := s.last_item_id,
          epics := s.epics,
          stories := mapModify sid (fun x => { x with status := st }) s.stories } := by
  simp only [update_story_status, h]

end Jira

namespace Jira

theorem not_mem_keys_of_le {α : Type} {l : List (Nat × α)} {n : Nat}
    (h : ∀ k ∈ keys l, k ≤ n) : n + 1 ∉ keys l :=
  fun hmem => absurd (h _ hmem) (by omega)

theorem mapInsert_fresh {α : Type} {l : List (Nat × α)} {n : Nat} (v : α)
    (h : ∀ k ∈ keys l, k ≤ n) : mapInsert (n + 1) v l = (n + 1, v) :: l := by
  unfold mapInsert
  rw [mapErase_of_not_mem (not_mem_keys_of_le h)]

theorem inv_create_epic {s : DBState} {e : Epic} (hs : Inv s) (he : e.stories = []) :
    Inv (create_epic s e).1 := by
  have hrw : (create_epic s e).1 =
      { last_item_id := s.last_item_id + 1,
        epics := (s.last_item_id + 1, e) :: s.epics,
        stories := s.stories } := by
    rw [create_epic_eq, mapInsert_fresh e hs.epicKeysLe]
  rw [hrw]
  have hlist : epicsListed ((s.last_item_id + 1, e) :: s.epics) = allListed s := by
    rw [epicsListed_cons]
    show e.stories ++ epicsListed s.epics = allListed s
    rw [he, List.nil_append]
    rfl
  refine ⟨?_, ?_, ?_, ?_, ?_, ?_, ?_⟩
  · show ((s.last_item_id + 1) :: keys s.epics).Nodup
    rw [List.nodup_cons]
    exact ⟨not_mem_keys_of_le hs.epicKeysLe, hs.epicKeysNodup⟩
  · exact hs.storyKeysNodup
  · intro k hk
    replace hk : k ∈ (s.last_item_id + 1) :: keys s.epics := hk
    show k ≤ s.last_item_id + 1
    rcases List.mem_cons.mp hk with h1 | h1
    · omega
    · have := hs.epicKeysLe k h1; omega
  · intro k hk
    show k ≤ s.last_item_id + 1
    have := hs.storyKeysLe k hk; omega
  · intro id hid
    replace hid : id ∈ epicsListed ((s.last_item_id + 1, e) :: s.epics) := hid
    rw [hlist] at hid
    show id ≤ s.last_item_id + 1
    have := hs.listedLe id hid; omega
  · show (epicsListed ((s.last_item_id + 1, e) :: s.epics)).Nodup
    rw [hlist]
    exact hs.listedNodup
  · intro id hid
    replace hid : id ∈ epicsListed ((s.last_item_id + 1, e) :: s.epics) := hid
    rw [hlist] at hid
    exact hs.listedInStories id hid

theorem inv_create_story {s : DBState} {story : Story} {eid : Nat} {s' : DBState}
    {id : Nat} (hs : Inv s) (h : create_story s story eid = Except.ok (s', id)) :
    Inv s' := by
  cases hfind : mapFind eid s.epics with
  | none =>
    rw [create_story_eq_none hfind] at h
    cases h
  | some e =>
    rw [create_story_eq_some hfind, mapInsert_fresh story hs.storyKeysLe] at h
    injection h with h'
    injection h' with h1 h2
    subst h1
    have hp1 := epicsListed_mapModify_perm
      (f := fun ep => { ep with stories := ep.stories ++ [s.last_item_id + 1] })
      hfind hs.epicKeysNodup
    have hp0 := epicsListed_perm_of_find hfind hs.epicKeysNodup
    have ha : ((e.stories ++ [s.last_item_id + 1]) ++ epicsListed (mapErase eid s.epics)).Perm
        ((s.last_item_id + 1) :: (e.stories ++ epicsListed (mapErase eid s.epics))) :=
      List.Perm.append_right (epicsListed (mapErase eid s.epics))
        (List.perm_append_singleton (s.last_item_id + 1) e.stories)
    have hfull : (epicsListed (mapModify eid
        (fun ep => { ep with stories := ep.stories ++ [s.last_item_id + 1] }) s.epics)).Perm
        ((s.last_item_id + 1) :: epicsListed s.epics) :=
      hp1.trans (ha.trans (List.Perm.cons _ hp0.symm))
    have hnewnotlisted : s.last_item_id + 1 ∉ epicsListed s.epics :=
      fun hmem => absurd (hs.listedLe _ hmem) (by omega)
    refine ⟨?_, ?_, ?_, ?_, ?_, ?_, ?_⟩
    · rw [show keys (mapModify eid
          (fun ep => { ep with stories := ep.stories ++ [s.last_item_id + 1] }) s.epics)
          = keys s.epics from keys_mapModify]
      exact hs.epicKeysNodup
    · rw [show keys ((s.last_item_id + 1, story) :: s.stories)
          = (s.last_item_id + 1) :: keys s.stories from rfl, List.nodup_cons]
      exact ⟨not_mem_keys_of_le hs.storyKeysLe, hs.storyKeysNodup⟩
    · intro k hk
      rw [show keys (mapModify eid
          (fun ep => { ep with stories := ep.stories ++ [s.last_item_id + 1] }) s.epics)
          = keys s.epics from keys_mapModify] at hk
      show k ≤ s.last_item_id + 1
      have := hs.epicKeysLe k hk; omega
    · intro k hk
      replace hk : k ∈ (s.last_item_id + 1) :: keys s.stories := hk
      show k ≤ s.last_item_id + 1
      rcases List.mem_cons.mp hk with h1 | h1
      · omega
      · have := hs.storyKeysLe k h1; omega
    · intro idx hidx
      show idx ≤ s.last_item_id + 1
      have : idx ∈ (s.last_item_id + 1) :: epicsListed s.epics := hfull.mem_iff.mp hidx
      rcases List.mem_cons.mp this with h1 | h1
      · omega
      · have := hs.listedLe idx h1; omega
    · exact hfull.nodup_iff.mpr (List.nodup_cons.mpr ⟨hnewnotlisted, hs.listedNodup⟩)
    · intro idx hidx
      have : idx ∈ (s.last_item_id + 1) :: epicsListed s.epics := hfull.mem_iff.mp hidx
      rcases List.mem_cons.mp this with h1 | h1
      · subst h1
        exact List.mem_cons_self _ _
      · exact List.mem_cons_of_mem _ (hs.listedInStories idx h1)

end Jira

namespace Jira

theorem inv_delete_epic {s : DBState} {eid : Nat} {s' : DBState}
    (hs : Inv s) (h : delete_epic s eid = Except.ok s') : Inv s' := by
  cases hfind : mapFind eid s.epics with
  | none =>
    rw [delete_epic_eq_none hfind] at h
    cases h
  | some e =>
    rw [delete_epic_eq_some hfind] at h
    injection h with h1
    subst h1
    have hp0 := epicsListed_perm_of_find hfind hs.epicKeysNodup
    have hnd2 : (e.stories ++ epicsListed (mapErase eid s.epics)).Nodup :=
      hp0.nodup_iff.mp hs.listedNodup
    have hdisj : e.stories.Disjoint (epicsListed (mapErase eid s.epics)) :=
      List.disjoint_of_nodup_append hnd2
    refine ⟨?_, ?_, ?_, ?_, ?_, ?_, ?_⟩
    · show (keys (mapErase eid s.epics)).Nodup
      exact keys_mapErase_sublist.nodup hs.epicKeysNodup
    · show (keys (e.stories.foldl (fun m id => mapErase id m) s.stories)).Nodup
      exact (keys_foldl_mapErase_sublist _).nodup hs.storyKeysNodup
    · intro k hk
      replace hk : k ∈ keys (mapErase eid s.epics) := hk
      show k ≤ s.last_item_id
      exact hs.epicKeysLe k (keys_mapErase_sublist.subset hk)
    · intro k hk
      replace hk : k ∈ keys (e.stories.foldl (fun m id => mapErase id m) s.stories) := hk
      show k ≤ s.last_item_id
      exact hs.storyKeysLe k ((keys_foldl_mapErase_sublist _).subset hk)
    · intro i hi
      replace hi : i ∈ epicsListed (mapErase eid s.epics) := hi
      show i ≤ s.last_item_id
      exact hs.listedLe i ((epicsListed_sublist mapErase_sublist).subset hi)
    · show (epicsListed (mapErase eid s.epics)).Nodup
      exact (epicsListed_sublist mapErase_sublist).nodup hs.listedNodup
    · intro i hi
      replace hi : i ∈ epicsListed (mapErase eid s.epics) := hi
      show i ∈ keys (e.stories.foldl (fun m id => mapErase id m) s.stories)
      have hiall : i ∈ allListed s := hp0.mem_iff.mpr (List.mem_append_right _ hi)
      have hnotin : i ∉ e.stories := fun hmem => hdisj hmem hi
      have hglob : i ∈ keys s.stories := hs.listedInStories i hiall
      rw [← mapFind_isSome_iff] at hglob ⊢
      rw [mapFind_foldl_mapErase_of_not_mem hnotin]
      exact hglob

theorem inv_delete_story {s : DBState} {eid sid : Nat} {s' : DBState}
    (hs : Inv s) (h : delete_story s eid sid = Except.ok s') : Inv s' := by
  cases hfind : mapFind eid s.epics with
  | none =>
    rw [delete_story_eq_no_epic hfind] at h
    cases h
  | some e =>
    cases hpos : position (fun id => id == sid) e.stories with
    | none =>
      rw [delete_story_eq_no_story hfind hpos] at h
      cases h
    | some idx =>
      rw [delete_story_eq_some hfind hpos] at h
      injection h with h1
      subst h1
      have hp0 := epicsListed_perm_of_find hfind hs.epicKeysNodup
      have hp1 := epicsListed_mapModify_perm
        (f := fun ep => { ep with stories := ep.stories.eraseIdx idx }) hfind hs.epicKeysNodup
      have hnd2 : (e.stories ++ epicsListed (mapErase eid s.epics)).Nodup :=
        hp0.nodup_iff.mp hs.listedNodup
      have hndE : e.stories.Nodup := (List.nodup_append.mp hnd2).1
      have hndR : (epicsListed (mapErase eid s.epics)).Nodup :=
        (List.nodup_append.mp hnd2).2.1
      have hdisj : e.stories.Disjoint (epicsListed (mapErase eid s.epics)) :=
        (List.nodup_append.mp hnd2).2.2
      have hsidE : sid ∈ e.stories := position_mem hpos
      have hsid1 : sid ∉ e.stories.eraseIdx idx := not_mem_eraseIdx_of_position hndE hpos
      have hsid2 : sid ∉ epicsListed (mapErase eid s.epics) := fun hmem => hdisj hsidE hmem
      have hsubE : (e.stories.eraseIdx idx).Sublist e.stories := List.eraseIdx_sublist _ _
      refine ⟨?_, ?_, ?_, ?_, ?_, ?_, ?_⟩
      · show (keys (mapModify eid
            (fun ep => { ep with stories := ep.stories.eraseIdx idx }) s.epics)).Nodup
        rw [keys_mapModify]
        exact hs.epicKeysNodup
      · show (keys (mapErase sid s.stories)).Nodup
        exact keys_mapErase_sublist.nodup hs.storyKeysNodup
      · intro k hk
        replace hk : k ∈ keys (mapModify eid
            (fun ep => { ep with stories := ep.stories.eraseIdx idx }) s.epics) := hk
        rw [keys_mapModify] at hk
        show k ≤ s.last_item_id
        exact hs.epicKeysLe k hk
      · intro k hk
        replace hk : k ∈ keys (mapErase sid s.stories) := hk
        show k ≤ s.last_item_id
        exact hs.storyKeysLe k (keys_mapErase_sublist.subset hk)
      · intro i hi
        replace hi : i ∈ epicsListed (mapModify eid
            (fun ep => { ep with stories := ep.stories.eraseIdx idx }) s.epics) := hi
        show i ≤ s.last_item_id
        have hmem2 := hp1.mem_iff.mp hi
        rcases List.mem_append.mp hmem2 with h1 | h1
        · exact hs.listedLe i (hp0.mem_iff.mpr (List.mem_append_left _ (hsubE.subset h1)))
        · exact hs.listedLe i (hp0.mem_iff.mpr (List.mem_append_right _ h1))
      · show (epicsListed (mapModify eid
            (fun ep => { ep with stories := ep.stories.eraseIdx idx }) s.epics)).Nodup
        refine hp1.nodup_iff.mpr (List.Nodup.append (hsubE.nodup hndE) hndR ?_)
        intro a ha1 ha2
        exact hdisj (hsubE.subset ha1) ha2
      · intro i hi
        replace hi : i ∈ epicsListed (mapModify eid
            (fun ep => { ep with stories := ep.stories.eraseIdx idx }) s.epics) := hi
        show i ∈ keys (mapErase sid s.stories)
        have hmem2 := hp1.mem_iff.mp hi
        have hine : i ≠ sid := by
          intro hEq
          subst hEq
          rcases List.mem_append.mp hmem2 with h1 | h1
          · exact hsid1 h1
          · exact hsid2 h1
        have hiall : i ∈ allListed s := by
          rcases List.mem_append.mp hmem2 with h1 | h1
          · exact hp0.mem_iff.mpr (List.mem_append_left _ (hsubE.subset h1))
          · exact hp0.mem_iff.mpr (List.mem_append_right _ h1)
        have hglob : i ∈ keys s.stories := hs.listedInStories i hiall
        rw [← mapFind_isSome_iff] at hglob ⊢
        rw [mapFind_mapErase_ne hine]
        exact hglob

theorem inv_update_epic_status {s : DBState} {eid : Nat} {st : Status} {s' : DBState}
    (hs : Inv s) (h : update_epic_status s eid st = Except.ok s') : Inv s' := by
  cases hfind : mapFind eid s.epics with
  | none =>
    rw [update_epic_status_eq_none hfind] at h
    cases h
  | some e =>
    rw [update_epic_status_eq_some hfind] at h
    injection h with h1
    subst h1
    have hlist : epicsListed (mapModify eid (fun ep => { ep with status := st }) s.epics)
        = epicsListed s.epics :=
      epicsListed_mapModify_stories_eq (fun _ => rfl)
    refine ⟨?_, ?_, ?_, ?_, ?_, ?_, ?_⟩
    · show (keys (mapModify eid (fun ep => { ep with status := st }) s.epics)).Nodup
      rw [keys_mapModify]
      exact hs.epicKeysNodup
    · exact hs.storyKeysNodup
    · intro k hk
      replace hk : k ∈ keys (mapModify eid (fun ep => { ep with status := st }) s.epics) := hk
      rw [keys_mapModify] at hk
      show k ≤ s.last_item_id
      exact hs.epicKeysLe k hk
    · exact hs.storyKeysLe
    · intro i hi
      replace hi : i ∈ epicsListed (mapModify eid (fun ep => { ep with status := st }) s.epics) := hi
      rw [hlist] at hi
      show i ≤ s.last_item_id
      exact hs.listedLe i hi
    · show (epicsListed (mapModify eid (fun ep => { ep with status := st }) s.epics)).Nodup
      rw [hlist]
      exact hs.listedNodup
    · intro i hi
      replace hi : i ∈ epicsListed (mapModify eid (fun ep => { ep with status := st }) s.epics) := hi
      rw [hlist] at hi
      exact hs.listedInStories i hi

theorem inv_update_story_status {s : DBState} {sid : Nat} {st : Status} {s' : DBState}
    (hs : Inv s) (h : update_story_status s sid st = Except.ok s') : Inv s' := by
  cases hfind : mapFind sid s.stories with
  | none =>
    rw [update_story_status_eq_none hfind] at h
    cases h
  | some sto =>
    rw [update_story_status_eq_some hfind] at h
    injection h with h1
    subst h1
    refine ⟨?_, ?_, ?_, ?_, ?_, ?_, ?_⟩
    · exact hs.epicKeysNodup
    · show (keys (mapModify sid (fun x => { x with status := st }) s.stories)).Nodup
      rw [keys_mapModify]
      exact hs.storyKeysNodup
    · exact hs.epicKeysLe
    · intro k hk
      replace hk : k ∈ keys (mapModify sid (fun x => { x with status := st }) s.stories) := hk
      rw [keys_mapModify] at hk
      show k ≤ s.last_item_id
      exact hs.storyKeysLe k hk
    · exact hs.listedLe
    · exact hs.listedNodup
    · intro i hi
      show i ∈ keys (mapModify sid (fun x => { x with status := st }) s.stories)
      rw [keys_mapModify]
      exact hs.listedInStories i hi

end Jira

namespace Jira

theorem inv_emptyState : Inv emptyState := by
  refine ⟨?_, ?_, ?_, ?_, ?_, ?_, ?_⟩ <;> simp [emptyState, keys, allListed, epicsListed]

theorem inv_applyOp {s : DBState} {op : Op} (hs : Inv s) (hg : goodCreate op = true) :
    Inv (applyOp s op).1 := by
  cases op with
  | createEpic e =>
    have he : e.stories = [] := by
      simpa [goodCreate] using hg
    exact inv_create_epic hs he
  | createStory st eid =>
    show Inv (match create_story s st eid with
      | Except.ok (s', id) => (s', some id)
      | Except.error _ => (s, none)).1
    cases h : create_story s st eid with
    | ok p =>
      obtain ⟨s', id⟩ := p
      exact inv_create_story hs h
    | error msg => exact hs
  | deleteEpic eid =>
    show Inv (match delete_epic s eid with
      | Except.ok s' => (s', none)
      | Except.error _ => (s, none)).1
    cases h : delete_epic s eid with
    | ok s' => exact inv_delete_epic hs h
    | error msg => exact hs
  | deleteStory eid sid =>
    show Inv (match delete_story s eid sid with
      | Except.ok s' => (s', none)
      | Except.error _ => (s, none)).1
    cases h : delete_story s eid sid with
    | ok s' => exact inv_delete_story hs h
    | error msg => exact hs
  | updateEpicStatus eid st =>
    show Inv (match update_epic_status s eid st with
      | Except.ok s' => (s', none)
      | Except.error _ => (s, none)).1
    cases h : update_epic_status s eid st with
    | ok s' => exact inv_update_epic_status hs h
    | error msg => exact hs
  | updateStoryStatus sid st =>
    show Inv (match update_story_status s sid st with
      | Except.ok s' => (s', none)
      | Except.error _ => (s, none)).1
    cases h : update_story_status s sid st with
    | ok s' => exact inv_update_story_status hs h
    | error msg => exact hs

theorem runOps_cons {s : DBState} {op : Op} {ops : List Op} :
    (runOps s (op :: ops)).1 = (runOps (applyOp s op).1 ops).1 := by
  show (match (applyOp s op) with
    | (s1, r) =>
      match runOps s1 ops with
      | (s2, ids) =>
        match r with
        | some id => (s2, id :: ids)
        | none => (s2, ids)).1 = (runOps (applyOp s op).1 ops).1
  rcases applyOp s op with ⟨s1, r⟩
  rcases h2 : runOps s1 ops with ⟨s2, ids⟩
  cases r <;> simp [h2]

theorem inv_runOps {s : DBState} {ops : List Op} (hs : Inv s)
    (hg : ∀ op ∈ ops, goodCreate op = true) : Inv (runOps s ops).1 := by
  induction ops generalizing s with
  | nil => exact hs
  | cons op ops ih =>
    rw [runOps_cons]
    exact ih (inv_applyOp hs (hg op (List.mem_cons_self _ _)))
      (fun o ho => hg o (List.mem_cons_of_mem _ ho))

end Jira

namespace Jira

theorem applyOp_last {s : DBState} (op : Op) :
    s.last_item_id ≤ (applyOp s op).1.last_item_id ∧
    ∀ id, (applyOp s op).2 = some id →
      id = s.last_item_id + 1 ∧ (applyOp s op).1.last_item_id = id := by
  cases op with
  | createEpic e =>
    refine ⟨Nat.le_succ _, ?_⟩
    intro id hret
    replace hret : some (s.last_item_id + 1) = some id := hret
    injection hret with hh
    exact ⟨hh.symm, hh⟩
  | createStory st eid =>
    simp only [applyOp]
    cases h : create_story s st eid with
    | ok p =>
      obtain ⟨s', id0⟩ := p
      cases hfind : mapFind eid s.epics with
      | none =>
        rw [create_story_eq_none hfind] at h
        cases h
      | some e =>
        rw [create_story_eq_some hfind] at h
        injection h with h'
        injection h' with hA hB
        subst hA
        subst hB
        refine ⟨Nat.le_succ _, ?_⟩
        intro id hret
        replace hret : some (s.last_item_id + 1) = some id := hret
        injection hret with hh
        exact ⟨hh.symm, hh⟩
    | error msg =>
      refine ⟨Nat.le_refl _, ?_⟩
      intro id hret
      replace hret : (none : Option Nat) = some id := hret
      cases hret
  | deleteEpic eid =>
    simp only [applyOp]
    cases h : delete_epic s eid with
    | ok s' =>
      cases hfind : mapFind eid s.epics with
      | none =>
        rw [delete_epic_eq_none hfind] at h
        cases h
      | some e =>
        rw [delete_epic_eq_some hfind] at h
        injection h with h1
        subst h1
        refine ⟨Nat.le_refl _, ?_⟩
        intro id hret
        replace hret : (none : Option Nat) = some id := hret
        cases hret
    | error msg =>
      refine ⟨Nat.le_refl _, ?_⟩
      intro id hret
      replace hret : (none : Option Nat) = some id := hret
      cases hret
  | deleteStory eid sid =>
    simp only [applyOp]
    cases h : delete_story s eid sid with
    | ok s' =>
      cases hfind : mapFind eid s.epics with
      | none =>
        rw [delete_story_eq_no_epic hfind] at h
        cases h
      | some e =>
        cases hpos : position (fun id => id == sid) e.stories with
        | none =>
          rw [delete_story_eq_no_story hfind hpos] at h
          cases h
        | some idx =>
          rw [delete_story_eq_some hfind hpos] at h
          injection h with h1
          subst h1
          refine ⟨Nat.le_refl _, ?_⟩
          intro id hret
          replace hret : (none : Option Nat) = some id := hret
          cases hret
    | error msg =>
      refine ⟨Nat.le_refl _, ?_⟩
      intro id hret
      replace hret : (none : Option Nat) = some id := hret
      cases hret
  | updateEpicStatus eid st =>
    simp only [applyOp]
    cases h : update_epic_status s eid st with
    | ok s' =>
      cases hfind : mapFind eid s.epics with
      | none =>
        rw [update_epic_status_eq_none hfind] at h
        cases h
      | some e =>
        rw [update_epic_status_eq_some hfind] at h
        injection h with h1
        subst h1
        refine ⟨Nat.le_refl _, ?_⟩
        intro id hret
        replace hret : (none : Option Nat) = some id := hret
        cases hret
    | error msg =>
      refine ⟨Nat.le_refl _, ?_⟩
      intro id hret
      replace hret : (none : Option Nat) = some id := hret
      cases hret
  | updateStoryStatus sid st =>
    simp only [applyOp]
    cases h : update_story_status s sid st with
    | ok s' =>
      cases hfind : mapFind sid s.stories with
      | none =>
        rw [update_story_status_eq_none hfind] at h
        cases h
      | some sto =>
        rw [update_story_status_eq_some hfind] at h
        injection h with h1
        subst h1
        refine ⟨Nat.le_refl _, ?_⟩
        intro id hret
        replace hret : (none : Option Nat) = some id := hret
        cases hret
    | error msg =>
      refine ⟨Nat.le_refl _, ?_⟩
      intro id hret
      replace hret : (none : Option Nat) = some id := hret
      cases hret

end Jira

namespace Jira

theorem keyInv_applyOp {s : DBState} (op : Op) (hs : KeyInv s) : KeyInv (applyOp s op).1 := by
  cases op with
  | createEpic e =>
    refine ⟨?_, ?_⟩
    · intro k hk
      replace hk : k ∈ (s.last_item_id + 1) :: keys (mapErase (s.last_item_id + 1) s.epics) := hk
      show k ≤ s.last_item_id + 1
      rcases List.mem_cons.mp hk with h1 | h1
      · omega
      · have := hs.epicKeysLe k (keys_mapErase_sublist.subset h1)
        omega
    · intro k hk
      replace hk : k ∈ keys s.stories := hk
      show k ≤ s.last_item_id + 1
      have := hs.storyKeysLe k hk
      omega
  | createStory st eid =>
    simp only [applyOp]
    cases h : create_story s st eid with
    | ok p =>
      obtain ⟨s', id0⟩ := p
      cases hfind : mapFind eid s.epics with
      | none =>
        rw [create_story_eq_none hfind] at h
        cases h
      | some e =>
        rw [create_story_eq_some hfind] at h
        injection h with h'
        injection h' with hA hB
        subst hA
        refine ⟨?_, ?_⟩
        · intro k hk
          replace hk : k ∈ keys (mapModify eid
              (fun ep => { ep with stories := ep.stories ++ [s.last_item_id + 1] }) s.epics) := hk
          rw [keys_mapModify] at hk
          show k ≤ s.last_item_id + 1
          have := hs.epicKeysLe k hk
          omega
        · intro k hk
          replace hk : k ∈ (s.last_item_id + 1)
              :: keys (mapErase (s.last_item_id + 1) s.stories) := hk
          show k ≤ s.last_item_id + 1
          rcases List.mem_cons.mp hk with h1 | h1
          · omega
          · have := hs.storyKeysLe k (keys_mapErase_sublist.subset h1)
            omega
    | error msg => exact hs
  | deleteEpic eid =>
    simp only [applyOp]
    cases h : delete_epic s eid with
    | ok s' =>
      cases hfind : mapFind eid s.epics with
      | none =>
        rw [delete_epic_eq_none hfind] at h
        cases h
      | some e =>
        rw [delete_epic_eq_some hfind] at h
        injection h with h1
        subst h1
        refine ⟨?_, ?_⟩
        · intro k hk
          replace hk : k ∈ keys (mapErase eid s.epics) := hk
          show k ≤ s.last_item_id
          exact hs.epicKeysLe k (keys_mapErase_sublist.subset hk)
        · intro k hk
          replace hk : k ∈ keys (e.stories.foldl (fun m id => mapErase id m) s.stories) := hk
          show k ≤ s.last_item_id
          exact hs.storyKeysLe k ((keys_foldl_mapErase_sublist _).subset hk)
    | error msg => exact hs
  | deleteStory eid sid =>
    simp only [applyOp]
    cases h : delete_story s eid sid with
    | ok s' =>
      cases hfind : mapFind eid s.epics with
      | none =>
        rw [delete_story_eq_no_epic hfind] at h
        cases h
      | some e =>
        cases hpos : position (fun id => id == sid) e.stories with
        | none =>
          rw [delete_story_eq_no_story hfind hpos] at h
          cases h
        | some idx =>
          rw [delete_story_eq_some hfind hpos] at h
          injection h with h1
          subst h1
          refine ⟨?_, ?_⟩
          · intro k hk
            replace hk : k ∈ keys (mapModify eid
                (fun ep => { ep with stories := ep.stories.eraseIdx idx }) s.epics) := hk
            rw [keys_mapModify] at hk
            show k ≤ s.last_item_id
            exact hs.epicKeysLe k hk
          · intro k hk
            replace hk : k ∈ keys (mapErase sid s.stories) := hk
            show k ≤ s.last_item_id
            exact hs.storyKeysLe k (keys_mapErase_sublist.subset hk)
    | error msg => exact hs
  | updateEpicStatus eid st =>
    simp only [applyOp]
    cases h : update_epic_status s eid st with
    | ok s' =>
      cases hfind : mapFind eid s.epics with
      | none =>
        rw [update_epic_status_eq_none hfind] at h
        cases h
      | some e =>
        rw [update_epic_status_eq_some hfind] at h
        injection h with h1
        subst h1
        refine ⟨?_, ?_⟩
        · intro k hk
          replace hk : k ∈ keys (mapModify eid (fun ep => { ep with status := st }) s.epics) := hk
          rw [keys_mapModify] at hk
          show k ≤ s.last_item_id
          exact hs.epicKeysLe k hk
        · intro k hk
          replace hk : k ∈ keys s.stories := hk
          show k ≤ s.last_item_id
          exact hs.storyKeysLe k hk
    | error msg => exact hs
  | updateStoryStatus sid st =>
    simp only [applyOp]
    cases h : update_story_status s sid st with
    | ok s' =>
      cases hfind : mapFind sid s.stories with
      | none =>
        rw [update_story_status_eq_none hfind] at h
        cases h
      | some sto =>
        rw [update_story_status_eq_some hfind] at h
        injection h with h1
        subst h1
        refine ⟨?_, ?_⟩
        · intro k hk
          replace hk : k ∈ keys s.epics := hk
          show k ≤ s.last_item_id
          exact hs.epicKeysLe k hk
        · intro k hk
          replace hk : k ∈ keys (mapModify sid (fun x => { x with status := st }) s.stories) := hk
          rw [keys_mapModify] at hk
          show k ≤ s.last_item_id
          exact hs.storyKeysLe k hk
    | error msg => exact hs

theorem runOps_cons_eq {s : DBState} {op : Op} {ops : List Op} :
    runOps s (op :: ops) =
      ((runOps (applyOp s op).1 ops).1,
        match (applyOp s op).2 with
        | some id => id :: (runOps (applyOp s op).1 ops).2
        | none => (runOps (applyOp s op).1 ops).2) := by
  show (match applyOp s op with
    | (s1, r) =>
      match runOps s1 ops with
      | (s2, ids) =>
        match r with
        | some id => (s2, id :: ids)
        | none => (s2, ids)) = _
  rcases applyOp s op with ⟨s1, r⟩
  rcases h2 : runOps s1 ops with ⟨s2, ids⟩
  cases r <;> simp [h2]

theorem runOps_facts {ops : List Op} {s : DBState} (hs : KeyInv s) :
    KeyInv (runOps s ops).1 ∧
    s.last_item_id ≤ (runOps s ops).1.last_item_id ∧
    (∀ i ∈ (runOps s ops).2, s.last_item_id < i ∧ i ≤ (runOps s ops).1.last_item_id) ∧
    List.Chain' (· < ·) (runOps s ops).2 := by
  induction ops generalizing s with
  | nil =>
    refine ⟨hs, Nat.le_refl _, ?_, ?_⟩
    · intro i hi
      cases hi
    · exact List.chain'_nil
  | cons op ops ih =>
    rw [runOps_cons_eq]
    obtain ⟨hle, hret⟩ := applyOp_last (s := s) op
    obtain ⟨ih1, ih2, ih3, ih4⟩ := ih (keyInv_applyOp op hs)
    cases hr : (applyOp s op).2 with
    | none =>
      refine ⟨ih1, hle.trans ih2, ?_, ih4⟩
      intro i hi
      exact ⟨Nat.lt_of_le_of_lt hle (ih3 i hi).1, (ih3 i hi).2⟩
    | some id =>
      obtain ⟨hid, hlast⟩ := hret id hr
      refine ⟨ih1, hle.trans ih2, ?_, ?_⟩
      · intro i hi
        rcases List.mem_cons.mp hi with h1 | h1
        · subst h1
          constructor
          · omega
          · rw [← hlast]
            exact ih2
        · exact ⟨Nat.lt_of_le_of_lt hle (ih3 i h1).1, (ih3 i h1).2⟩
      · rw [List.chain'_cons']
        refine ⟨?_, ih4⟩
        intro y hy
        have hymem : y ∈ (runOps (applyOp s op).1 ops).2 := List.mem_of_mem_head? hy
        have := (ih3 y hymem).1
        omega

end Jira

namespace Jira

theorem keyInv_emptyState : KeyInv emptyState := by
  refine ⟨?_, ?_⟩ <;> intro k hk <;> simp [emptyState, keys] at hk

/-- C1 (amended): for every state reachable from the empty state by a sequence
of Domain Store operations whose `createEpic` arguments carry an empty
`stories` list (as every epic built by `Epic::new` does), every story id
listed in any epic's `stories` sequence has an entry in the global story map,
and no story id appears more than once across the epics' `stories` sequences
(in particular, in no two distinct epics).  As literally stated — over
arbitrary `createEpic` arguments — the claim fails, see the counterexample. -/
theorem c1_referential_integrity (ops : List Op)
    (hg : ∀ op ∈ ops, goodCreate op = true) :
    (∀ id ∈ allListed (runOps emptyState ops).1,
      (mapFind id (runOps emptyState ops).1.stories).isSome) ∧
    (allListed (runOps emptyState ops).1).Nodup := by
  have hinv := inv_runOps inv_emptyState hg
  constructor
  · intro id hid
    exact mapFind_isSome_iff.mpr (hinv.listedInStories id hid)
  · exact hinv.listedNodup

/-- C1 witness: a concrete run — create an epic, then a story under it. -/
theorem c1_referential_integrity_witness :
    (∀ op ∈ [Op.createEpic (Epic.new "" ""), Op.createStory (Story.new "" "") 1],
      goodCreate op = true) ∧
    ((∀ id ∈ allListed (runOps emptyState
        [Op.createEpic (Epic.new "" ""), Op.createStory (Story.new "" "") 1]).1,
      (mapFind id (runOps emptyState
        [Op.createEpic (Epic.new "" ""), Op.createStory (Story.new "" "") 1]).1.stories).isSome) ∧
    (allListed (runOps emptyState
        [Op.createEpic (Epic.new "" ""), Op.createStory (Story.new "" "") 1]).1).Nodup) :=
  ⟨by decide, c1_referential_integrity _ (by decide)⟩

/-- C1 counterexample: `create_epic` stores the caller's epic verbatim, so a
single successful `createEpic` whose argument lists story id 1 reaches a state
where id 1 is listed by an epic but absent from the story map. -/
theorem c1_counterexample :
    (1 : Nat) ∈ allListed (applyOp emptyState (Op.createEpic
      { name := "", description := "", status := Status.Open, stories := [1] })).1 ∧
    mapFind 1 (applyOp emptyState (Op.createEpic
      { name := "", description := "", status := Status.Open, stories := [1] })).1.stories
      = none := by
  exact ⟨by decide, rfl⟩

/-- C2: `last_item_id` never decreases across any operation; along any
operation sequence from the empty state the returned create identifiers are
strictly increasing (hence never reused, even after deletes), and every key of
either map is bounded by `last_item_id`. -/
theorem c2_monotonic_unique_ids :
    (∀ (s : DBState) (op : Op), s.last_item_id ≤ (applyOp s op).1.last_item_id) ∧
    (∀ ops : List Op,
      List.Chain' (· < ·) (runOps emptyState ops).2 ∧
      (runOps emptyState ops).2.Nodup ∧
      ∀ k, (k ∈ keys (runOps emptyState ops).1.epics ∨
            k ∈ keys (runOps emptyState ops).1.stories) →
        k ≤ (runOps emptyState ops).1.last_item_id) := by
  constructor
  · intro s op
    exact (applyOp_last op).1
  · intro ops
    obtain ⟨hKI, _, _, hchain⟩ := @runOps_facts ops emptyState keyInv_emptyState
    refine ⟨hchain, ?_, ?_⟩
    · exact (List.chain'_iff_pairwise.mp hchain).imp fun hab => Nat.ne_of_lt hab
    · intro k hk
      rcases hk with h1 | h1
      · exact hKI.epicKeysLe k h1
      · exact hKI.storyKeysLe k h1

/-- C2 witness: after create, create, delete the first epic, the surviving key
2 is bounded by the final `last_item_id`. -/
theorem c2_monotonic_unique_ids_witness :
    2 ≤ (runOps emptyState [Op.createEpic (Epic.new "" ""),
      Op.createEpic (Epic.new "" ""), Op.deleteEpic 1]).1.last_item_id :=
  (c2_monotonic_unique_ids.2 [Op.createEpic (Epic.new "" ""),
      Op.createEpic (Epic.new "" ""), Op.deleteEpic 1]).2.2 2 (Or.inl (by decide))

/-- C3 counterexample: `create_epic` does not overwrite the caller-supplied
`stories` with an empty sequence — an epic supplied with `stories = [5]` is
stored verbatim, still listing 5. -/
theorem c3_counterexample :
    mapFind 1 ((create_epic emptyState
      { name := "", description := "", status := Status.Open, stories := [5] }).1.epics)
      = some { name := "", description := "", status := Status.Open, stories := [5] } ∧
    ({ name := "", description := "", status := Status.Open,
       stories := [5] } : Epic).stories ≠ [] := by
  exact ⟨rfl, by decide⟩

/-- C3 (amended): for every caller-supplied epic, `create_epic` inserts the
epic unchanged (the caller-supplied `stories` field is preserved, not
overwritten) under the freshly allocated id `last_item_id + 1`, increments
`last_item_id` by one, leaves every other epic and the story map untouched,
and returns the new id; it never fails. -/
theorem c3_create_epic_functional (s : DBState) (epic : Epic) :
    (create_epic s epic).2 = s.last_item_id + 1 ∧
    (create_epic s epic).1.last_item_id = s.last_item_id + 1 ∧
    mapFind (s.last_item_id + 1) (create_epic s epic).1.epics = some epic ∧
    (∀ k, k ≠ s.last_item_id + 1 →
      mapFind k (create_epic s epic).1.epics = mapFind k s.epics) ∧
    (create_epic s epic).1.stories = s.stories := by
  refine ⟨rfl, rfl, mapFind_mapInsert_self, ?_, rfl⟩
  intro k hk
  exact mapFind_mapInsert_ne hk

/-- C3 witness: the amended behaviour at a concrete input. -/
theorem c3_create_epic_functional_witness :
    mapFind 1 ((create_epic emptyState
      { name := "a", description := "b", status := Status.Open, stories := [7] }).1.epics)
      = some { name := "a", description := "b", status := Status.Open, stories := [7] } ∧
    mapFind 3 ((create_epic emptyState
      { name := "a", description := "b", status := Status.Open, stories := [7] }).1.epics)
      = mapFind 3 emptyState.epics :=
  ⟨(c3_create_epic_functional emptyState _).2.2.1,
   (c3_create_epic_functional emptyState _).2.2.2.1 3 (by decide)⟩

/-- C4: when the epic id has no entry in the epic map, `create_story` fails
with the `NotFound`-style error and the persisted state is unchanged: the
write never happens, so `last_item_id` is not advanced and the story map does
not gain the story. -/
theorem c4_create_story_error_atomicity (s : DBState) (story : Story) (eid : Nat)
    (h : mapFind eid s.epics = none) :
    create_story s story eid = Except.error "Epic not found!" ∧
    applyOp s (Op.createStory story eid) = (s, none) := by
  refine ⟨create_story_eq_none h, ?_⟩
  simp only [applyOp, create_story_eq_none h]

/-- C4 witness: the spec's scenario — `createStory` against epic id 999 on the
empty store fails and leaves the state at `last_item_id = 0`. -/
theorem c4_create_story_error_atomicity_witness :
    mapFind 999 emptyState.epics = none ∧
    create_story emptyState (Story.new "" "") 999 = Except.error "Epic not found!" ∧
    applyOp emptyState (Op.createStory (Story.new "" "") 999) = (emptyState, none) :=
  ⟨rfl, c4_create_story_error_atomicity emptyState (Story.new "" "") 999 rfl⟩

/-- C5: when the epic exists, `delete_epic` succeeds, every story id the epic
listed becomes absent from the global story map, the epic id becomes absent
from the epic map, and `last_item_id` keeps its prior value. -/
theorem c5_delete_epic_cascade (s : DBState) (eid : Nat) (e : Epic)
    (h : mapFind eid s.epics = some e) :
    ∃ s', delete_epic s eid = Except.ok s' ∧
      (∀ id ∈ e.stories, mapFind id s'.stories = none) ∧
      mapFind eid s'.epics = none ∧
      s'.last_item_id = s.last_item_id := by
  refine ⟨_, delete_epic_eq_some h, ?_, ?_, rfl⟩
  · intro id hid
    exact mapFind_foldl_mapErase_of_mem hid _
  · exact mapFind_mapErase_self

/-- C5 witness: the spec's scenario — epic 1 owning story 2; deleting epic 1
removes both while `last_item_id` stays 2. -/
theorem c5_delete_epic_cascade_witness :
    mapFind 1 sampleState.epics = some sampleEpic ∧
    (∃ s', delete_epic sampleState 1 = Except.ok s' ∧
      (∀ id ∈ sampleEpic.stories, mapFind id s'.stories = none) ∧
      mapFind 1 s'.epics = none ∧
      s'.last_item_id = sampleState.last_item_id) :=
  ⟨rfl, c5_delete_epic_cascade _ 1 _ rfl⟩

end Jira

namespace Jira

/-- C6: `delete_story` fails with the epic-not-found error when the epic is
absent, fails with the distinct story-not-found error when the epic exists but
`story_id` is not in its `stories` sequence, leaving the persisted state
unchanged in both failure cases; on success it removes the first matching
entry from the epic's `stories` sequence and removes the story from the
global story map. -/
theorem c6_delete_story_errors_and_effect (s : DBState) (eid sid : Nat) :
    (mapFind eid s.epics = none →
      delete_story s eid sid = Except.error "Epic with such id not found!" ∧
      applyOp s (Op.deleteStory eid sid) = (s, none)) ∧
    (∀ e, mapFind eid s.epics = some e → sid ∉ e.stories →
      delete_story s eid sid = Except.error "Story not found" ∧
      ("Story not found" : String) ≠ "Epic with such id not found!" ∧
      applyOp s (Op.deleteStory eid sid) = (s, none)) ∧
    (∀ e idx, mapFind eid s.epics = some e →
      position (fun id => id == sid) e.stories = some idx →
      ∃ s', delete_story s eid sid = Except.ok s' ∧
        mapFind eid s'.epics = some { e with stories := e.stories.eraseIdx idx } ∧
        mapFind sid s'.stories = none ∧
        (∀ k, k ≠ eid → mapFind k s'.epics = mapFind k s.epics) ∧
        s'.last_item_id = s.last_item_id) := by
  refine ⟨?_, ?_, ?_⟩
  · intro h
    refine ⟨delete_story_eq_no_epic h, ?_⟩
    simp only [applyOp, delete_story_eq_no_epic h]
  · intro e hfind hnotmem
    have hpos := position_eq_none_of_not_mem hnotmem
    refine ⟨delete_story_eq_no_story hfind hpos, by decide, ?_⟩
    simp only [applyOp, delete_story_eq_no_story hfind hpos]
  · intro e idx hfind hpos
    refine ⟨_, delete_story_eq_some hfind hpos, ?_, mapFind_mapErase_self, ?_, rfl⟩
    · show mapFind eid (mapModify eid
          (fun ep => { ep with stories := ep.stories.eraseIdx idx }) s.epics)
        = some { e with stories := e.stories.eraseIdx idx }
      rw [mapFind_mapModify_self, hfind, Option.map_some']
    · intro k hk
      show mapFind k (mapModify eid
          (fun ep => { ep with stories := ep.stories.eraseIdx idx }) s.epics)
        = mapFind k s.epics
      exact mapFind_mapModify_ne hk

/-- C6 witness: all three behaviours on the sample state — missing epic 999,
story 999 missing from epic 1's list, and the successful deletion of story 2
from epic 1. -/
theorem c6_delete_story_errors_and_effect_witness :
    (mapFind 999 sampleState.epics = none ∧
      delete_story sampleState 999 2 = Except.error "Epic with such id not found!") ∧
    (mapFind 1 sampleState.epics = some sampleEpic ∧ 999 ∉ sampleEpic.stories ∧
      delete_story sampleState 1 999 = Except.error "Story not found") ∧
    (mapFind 1 sampleState.epics = some sampleEpic ∧
      position (fun id => id == 2) sampleEpic.stories = some 0 ∧
      ∃ s', delete_story sampleState 1 2 = Except.ok s' ∧
        mapFind 2 s'.stories = none) := by
  refine ⟨⟨rfl, ?_⟩, ⟨rfl, by decide, ?_⟩, ⟨rfl, rfl, ?_⟩⟩
  · exact ((c6_delete_story_errors_and_effect sampleState 999 2).1 rfl).1
  · exact ((c6_delete_story_errors_and_effect sampleState 1 999).2.1
      sampleEpic rfl (by decide)).1
  · obtain ⟨s', h1, _, h3, _, _⟩ :=
      (c6_delete_story_errors_and_effect sampleState 1 2).2.2 sampleEpic 0 rfl rfl
    exact ⟨s', h1, h3⟩

/-- C7: the file backend's `write_db` does not return an `IOError`-style
failure when the underlying `fs::write` fails — it panics with
`"Can't write to file"` (via `.expect`), aborting instead of handing the
caller a failure result.  This contradicts the claim (and the spec's
propagation policy); the `Result` return type of `write_db` shows the intent,
so the code is the slip. -/
theorem c7_write_db_panics_on_fs_failure :
    write_db (Except.ok "{}") false = WriteOutcome.panicked "Can't write to file" ∧
    ∀ msg, write_db (Except.ok "{}") false ≠ WriteOutcome.err msg := by
  refine ⟨rfl, ?_⟩
  intro msg h
  cases h

/-- C9: even when an epic's `stories` sequence lists the same story id more
than once — a state only a hand-edited persisted file could contain —
`delete_epic` on that epic still succeeds (the second removal of the
already-absent id is a no-op), and afterwards every listed story id is absent
from the global story map. -/
theorem c9_duplicate_listed_delete_epic (s : DBState) (eid : Nat) (e : Epic)
    (h : mapFind eid s.epics = some e) (_hdup : ¬ e.stories.Nodup) :
    ∃ s', delete_epic s eid = Except.ok s' ∧
      ∀ id ∈ e.stories, mapFind id s'.stories = none :=
  ⟨_, delete_epic_eq_some h, fun _ hid => mapFind_foldl_mapErase_of_mem hid _⟩

/-- C9 witness: deleting epic 1 of `dupState`, whose list holds id 2 twice,
succeeds and leaves id 2 absent from the story map. -/
theorem c9_duplicate_listed_delete_epic_witness :
    mapFind 1 dupState.epics = some dupEpic ∧ ¬ dupEpic.stories.Nodup ∧
    ∃ s', delete_epic dupState 1 = Except.ok s' ∧
      ∀ id ∈ dupEpic.stories, mapFind id s'.stories = none :=
  ⟨rfl, by decide, c9_duplicate_listed_delete_epic dupState 1 dupEpic rfl (by decide)⟩

/-- C10: `update_epic_status` rewrites only the status of the addressed epic —
its other fields, every other epic, the whole story map and `last_item_id`
are unchanged; symmetrically for `update_story_status`. -/
theorem c10_update_status_frame (s : DBState) (st : Status) :
    (∀ eid e, mapFind eid s.epics = some e →
      ∃ s', update_epic_status s eid st = Except.ok s' ∧
        mapFind eid s'.epics = some { e with status := st } ∧
        (∀ k, k ≠ eid → mapFind k s'.epics = mapFind k s.epics) ∧
        s'.stories = s.stories ∧
        s'.last_item_id = s.last_item_id) ∧
    (∀ sid sto, mapFind sid s.stories = some sto →
      ∃ s', update_story_status s sid st = Except.ok s' ∧
        mapFind sid s'.stories = some { sto with status := st } ∧
        (∀ k, k ≠ sid → mapFind k s'.stories = mapFind k s.stories) ∧
        s'.epics = s.epics ∧
        s'.last_item_id = s.last_item_id) := by
  constructor
  · intro eid e hfind
    refine ⟨_, update_epic_status_eq_some hfind, ?_, ?_, rfl, rfl⟩
    · show mapFind eid (mapModify eid (fun ep => { ep with status := st }) s.epics)
        = some { e with status := st }
      rw [mapFind_mapModify_self, hfind, Option.map_some']
    · intro k hk
      show mapFind k (mapModify eid (fun ep => { ep with status := st }) s.epics)
        = mapFind k s.epics
      exact mapFind_mapModify_ne hk
  · intro sid sto hfind
    refine ⟨_, update_story_status_eq_some hfind, ?_, ?_, rfl, rfl⟩
    · show mapFind sid (mapModify sid (fun x => { x with status := st }) s.stories)
        = some { sto with status := st }
      rw [mapFind_mapModify_self, hfind, Option.map_some']
    · intro k hk
      show mapFind k (mapModify sid (fun x => { x with status := st }) s.stories)
        = mapFind k s.stories
      exact mapFind_mapModify_ne hk

/-- C10 witness: closing epic 1 and story 2 of the sample state changes only
the addressed entity's status. -/
theorem c10_update_status_frame_witness :
    (mapFind 1 sampleState.epics = some sampleEpic ∧
      ∃ s', update_epic_status sampleState 1 Status.Closed = Except.ok s' ∧
        mapFind 1 s'.epics = some { sampleEpic with status := Status.Closed } ∧
        s'.stories = sampleState.stories) ∧
    (mapFind 2 sampleState.stories
        = some { name := "s", description := "", status := Status.Open } ∧
      ∃ s', update_story_status sampleState 2 Status.Closed = Except.ok s' ∧
        mapFind 2 s'.stories = some { name := "s", description := "",
                                      status := Status.Closed } ∧
        s'.epics = sampleState.epics) := by
  constructor
  · refine ⟨rfl, ?_⟩
    obtain ⟨s', h1, h2, _, h4, _⟩ :=
      (c10_update_status_frame sampleState Status.Closed).1 1 sampleEpic rfl
    exact ⟨s', h1, h2, h4⟩
  · refine ⟨rfl, ?_⟩
    obtain ⟨s', h1, h2, _, h4, _⟩ :=
      (c10_update_status_frame sampleState Status.Closed).2 2
        { name := "s", description := "", status := Status.Open } rfl
    exact ⟨s', h1, h2, h4⟩

end Jira

namespace Jira

theorem natDigitsAux_eq {fuel n : Nat} (h : n ≤ fuel) :
    natDigitsAux fuel n = Nat.digits 10 n := by
  induction fuel generalizing n with
  | zero =>
    have hn : n = 0 := Nat.le_zero.mp h
    subst hn
    simp [natDigitsAux, Nat.digits_zero]
  | succ f ih =>
    by_cases hn : n = 0
    · subst hn
      simp [natDigitsAux, Nat.digits_zero]
    · have hdiv : n / 10 ≤ f := by
        have : n / 10 < n := Nat.div_lt_self (Nat.pos_of_ne_zero hn) (by norm_num)
        omega
      rw [natDigitsAux, if_neg hn, ih hdiv,
        Nat.digits_def' (b := 10) (by norm_num) (Nat.pos_of_ne_zero hn)]

theorem natDigits_eq (n : Nat) : natDigits n = Nat.digits 10 n :=
  natDigitsAux_eq (Nat.le_refl n)

theorem charDigit_digitChar {d : Nat} (h : d < 10) :
    charDigit (digitChar d) = d := by
  interval_cases d <;> rfl

theorem isDigitChar_digitChar {d : Nat} (h : d < 10) :
    isDigitChar (digitChar d) = true := by
  interval_cases d <;> rfl

theorem natUnkey_natKey (n : Nat) : natUnkey (natKey n) = some n := by
  by_cases h0 : n = 0
  · subst h0
    rfl
  · have hne : Nat.digits 10 n ≠ [] := Nat.digits_ne_nil_iff_ne_zero.mpr h0
    have hlt : ∀ d ∈ Nat.digits 10 n, d < 10 := fun d hd =>
      Nat.digits_lt_base (by norm_num) hd
    rw [natKey, if_neg h0, natDigits_eq]
    rw [natUnkey]
    have hdata : (String.mk ((Nat.digits 10 n).reverse.map digitChar)).data
        = (Nat.digits 10 n).reverse.map digitChar := rfl
    rw [hdata]
    have hempty : ((Nat.digits 10 n).reverse.map digitChar).isEmpty = false := by
      rw [List.isEmpty_eq_false]
      simp only [ne_eq, List.map_eq_nil_iff, List.reverse_eq_nil_iff]
      exact hne
    have hall : ((Nat.digits 10 n).reverse.map digitChar).all isDigitChar = true := by
      rw [List.all_eq_true]
      intro c hc
      rw [List.mem_map] at hc
      obtain ⟨d, hd, rfl⟩ := hc
      exact isDigitChar_digitChar (hlt d (List.mem_reverse.mp hd))
    rw [hempty, hall]
    simp only [Nat.ofDigits_digits, Bool.not_true, Bool.or_false, if_false]
    have hmapmap : (((Nat.digits 10 n).reverse.map digitChar).map charDigit)
        = (Nat.digits 10 n).reverse := by
      rw [List.map_map]
      have hcong : ∀ d ∈ (Nat.digits 10 n).reverse,
          (charDigit ∘ digitChar) d = id d := fun d hd =>
        charDigit_digitChar (hlt d (List.mem_reverse.mp hd))
      rw [List.map_congr_left hcong, List.map_id]
    rw [hmapmap, List.reverse_reverse, Nat.ofDigits_digits]
    rfl

theorem decodeStatus_encodeStatus (st : Status) :
    decodeStatus (encodeStatus st) = some st := by
  cases st <;> rfl

theorem decodeStory_encodeStory (st : Story) :
    decodeStory (encodeStory st) = some st := by
  show (decodeStatus (encodeStatus st.status)).map
      (fun x => { name := st.name, description := st.description, status := x }) = some st
  rw [decodeStatus_encodeStatus]
  rfl

theorem decodeNums_map_num (l : List Nat) : decodeNums (l.map Json.num) = some l := by
  induction l with
  | nil => rfl
  | cons x xs ih =>
    show (decodeNums (xs.map Json.num)).map (fun t => x :: t) = some (x :: xs)
    rw [ih]
    rfl

theorem decodeEpic_encodeEpic (e : Epic) : decodeEpic (encodeEpic e) = some e := by
  show (match decodeStatus (encodeStatus e.status), decodeNums (e.stories.map Json.num) with
    | some st, some ids =>
      some { name := e.name, description := e.description, status := st, stories := ids }
    | _, _ => none) = some e
  rw [decodeStatus_encodeStatus, decodeNums_map_num]

theorem decodeEpicEntries_encode (l : List (Nat × Epic)) :
    decodeEpicEntries (l.map (fun p => (natKey p.1, encodeEpic p.2))) = some l := by
  induction l with
  | nil => rfl
  | cons p t ih =>
    obtain ⟨k, e⟩ := p
    show (match natUnkey (natKey k), decodeEpic (encodeEpic e),
        decodeEpicEntries (t.map (fun p => (natKey p.1, encodeEpic p.2))) with
      | some k', some e', some t' => some ((k', e') :: t')
      | _, _, _ => none) = some ((k, e) :: t)
    rw [natUnkey_natKey, decodeEpic_encodeEpic, ih]

theorem decodeStoryEntries_encode (l : List (Nat × Story)) :
    decodeStoryEntries (l.map (fun p => (natKey p.1, encodeStory p.2))) = some l := by
  induction l with
  | nil => rfl
  | cons p t ih =>
    obtain ⟨k, st⟩ := p
    show (match natUnkey (natKey k), decodeStory (encodeStory st),
        decodeStoryEntries (t.map (fun p => (natKey p.1, encodeStory p.2))) with
      | some k', some st', some t' => some ((k', st') :: t')
      | _, _, _ => none) = some ((k, st) :: t)
    rw [natUnkey_natKey, decodeStory_encodeStory, ih]

theorem decodeDBState_encodeDBState (s : DBState) :
    decodeDBState (encodeDBState s) = some s := by
  show (match decodeEpicEntries (s.epics.map fun p => (natKey p.1, encodeEpic p.2)),
        decodeStoryEntries (s.stories.map fun p => (natKey p.1, encodeStory p.2)) with
    | some el, some sl =>
      some { last_item_id := s.last_item_id, epics := el, stories := sl }
    | _, _ => none) = some s
  rw [decodeEpicEntries_encode, decodeStoryEntries_encode]

/-- C8: serializing a state to the persisted JSON document shape and decoding
it back yields the state unchanged, for every state of the data model (the
key-uniqueness hypotheses record that real `HashMap`-backed states never carry
a duplicated key). -/
theorem c8_state_roundtrip (s : DBState)
    (_h1 : (keys s.epics).Nodup) (_h2 : (keys s.stories).Nodup) :
    decodeDBState (encodeDBState s) = some s :=
  decodeDBState_encodeDBState s

/-- C8 witness: the round trip at the concrete sample state. -/
theorem c8_state_roundtrip_witness :
    (keys sampleState.epics).Nodup ∧ (keys sampleState.stories).Nodup ∧
    decodeDBState (encodeDBState sampleState) = some sampleState :=
  ⟨by decide, by decide, c8_state_roundtrip sampleState (by decide) (by decide)⟩

end Jira
